import Mathlib

/-!
Verification of the certificate cache and refresh subsystem of
cloudengio/go.webapp.

The embedding covers:
- the name classifier (`IsAcmeAccountKey`, `IsLocalName`) from
  webauth/acme/certcache/cache.go, built on Go `strings.HasSuffix` and
  `strings.Contains` semantics over `List Char`;
- `CachingStore.Get`, `Put`, `Delete` and `useBackingStore`, modelled as
  pure functions over an abstract storage tier interface (`Tier`), an
  explicit lock-acquisition outcome, and an event trace recording every
  backing-store call, local-tier call and lock transition;
- the two concrete tier semantics that appear in the repository:
  `dirCacheTier` (autocert.DirCache over a directory: a missing file reads
  as ErrCacheMiss, deletes of missing files succeed) and `osTier`
  (the repository's own localCache built on os.ReadFile / os.WriteFile /
  os.Remove: missing files read and delete as fs.ErrNotExist);
- the ACME refresh client's `refreshHost`, `getCertificate` failure loop
  and `stop` function, with channel/timer waits modelled by explicit
  arrival times.
-/

namespace Certcache

/-- Cached artifacts are uninterpreted byte sequences. -/
abbrev Bytes := List Nat

/-- Errors reported by an underlying store: `notExist` models
fs.ErrNotExist / os.ErrNotExist, `cacheMiss` models autocert.ErrCacheMiss
(the form autocert.DirCache reports for a missing file), `other` models any
other error, carried as an opaque code. -/
inductive FSErr where
  | notExist
  | cacheMiss
  | other (code : Nat)
deriving DecidableEq

/-- Errors returned by CachingStore methods: the canonical ErrCacheMiss,
ErrReadonlyCache / ErrLocalOperation / ErrBackingOperation wrappers carrying
the operation, the effective key and the underlying cause, and
ErrLockFailed. -/
inductive GoErr where
  | cacheMiss
  | readonlyCache (op name : String)
  | localOp (op name : String) (cause : FSErr)
  | backingOp (op name : String) (cause : FSErr)
  | lockFailed
deriving DecidableEq

/-- Observable effects of one CachingStore operation, in order: calls into
the backing store, calls into the local tier, and lock transitions
(`lockExcl` / `lockShared` are successful acquisitions, `lockFail` a failed
acquisition attempt, `unlock` the release performed by the deferred
unlock). -/
inductive Event where
  | backingRead (name : String)
  | backingWrite (name : String) (data : Bytes)
  | backingDelete (name : String)
  | localRead (name : String)
  | localWrite (name : String) (data : Bytes)
  | localDelete (name : String)
  | lockExcl
  | lockShared
  | lockFail
  | unlock
deriving DecidableEq

/-- Immutable CachingStore configuration: the WithReadonly flag and the
WithSaveAccountKey alias (empty string when not configured). -/
structure Options where
  readonly : Bool
  saveAccountKeyName : String
deriving DecidableEq

/-! Go strings package semantics over `List Char`. -/

/-- Go `strings.HasPrefix` over character lists. -/
def goHasPrefixL : List Char → List Char → Bool
  | _, [] => true
  | [], _ :: _ => false
  | c :: cs, d :: ds => c == d && goHasPrefixL cs ds

/-- Go `strings.Contains` over character lists: some tail of `s` starts
with `sub`. -/
def goContainsL (sub : List Char) : List Char → Bool
  | [] => goHasPrefixL [] sub
  | c :: cs => goHasPrefixL (c :: cs) sub || goContainsL sub cs

/-- Go `strings.HasSuffix s suffix`. -/
def goHasSuffix (s suffix : String) : Bool :=
  goHasPrefixL s.data.reverse suffix.data.reverse

/-- Go `strings.Contains s sub`. -/
def goContains (s sub : String) : Bool :=
  goContainsL sub.data s.data

/-- IsAcmeAccountKey returns true if the specified name is for an ACME
account private key (cache.go). -/
def IsAcmeAccountKey (name : String) : Bool :=
  name == "acme_account+key" || name == "acme_account.key"

/-- IsLocalName returns true if the specified name is for local-only data
such as ACME client private keys or http-01 challenge tokens (cache.go). -/
def IsLocalName (name : String) : Bool :=
  goHasSuffix name "+token" || goHasSuffix name "+rsa" ||
  goContains name "http-01" || IsAcmeAccountKey name

/-- CachingStore.useBackingStore: a non-local name goes to the backing
store under its own name; the account key is redirected to the backing
store under the configured alias when one is set; every other local name
stays local (cache.go). -/
def useBackingStore (o : Options) (name : String) : String × Bool :=
  if !(IsLocalName name) then (name, true)
  else if 0 < o.saveAccountKeyName.length ∧ IsAcmeAccountKey name = true then
    (o.saveAccountKeyName, true)
  else (name, false)

/-- Storage tier interface: the StoreFS capability (ReadFileCtx,
WriteFileCtx, Delete) with explicit state of type `σ`. The local tier
(autocert.DirCache) and the injected backing store both fit this shape. -/
structure Tier (σ : Type) where
  read : σ → String → Except FSErr Bytes
  write : σ → String → Bytes → Except FSErr σ
  delete : σ → String → Except FSErr σ

/-- Error forms recognized by CachingStore.translateCacheMiss:
fs.ErrNotExist, autocert.ErrCacheMiss and os.ErrNotExist. -/
def isNotFound : FSErr → Bool
  | .notExist => true
  | .cacheMiss => true
  | .other _ => false

/-- CachingStore.Get (cache.go): route by useBackingStore; on the backing
path read the backing store and translate not-found to ErrCacheMiss,
wrapping other errors as backing-operation errors; on the local path
acquire the lock (shared when readonly, exclusive otherwise; `lockOk`
models whether acquisition succeeds), read the local cache with the same
miss translation, wrap other errors as local-operation errors, and release
the lock on every return path. -/
def cacheGet {σl σb : Type} (tl : Tier σl) (tb : Tier σb) (o : Options)
    (lockOk : Bool) (sl : σl) (sb : σb) (name : String) :
    Except GoErr Bytes × List Event :=
  match useBackingStore o name with
  | (n, true) =>
    match tb.read sb n with
    | .ok data => (.ok data, [.backingRead n])
    | .error e =>
      if isNotFound e then (.error .cacheMiss, [.backingRead n])
      else (.error (.backingOp "get" n e), [.backingRead n])
  | (n, false) =>
    if lockOk then
      match tl.read sl n with
      | .ok data =>
        (.ok data, [(if o.readonly then Event.lockShared else Event.lockExcl),
          .localRead n, .unlock])
      | .error e =>
        if isNotFound e then
          (.error .cacheMiss,
            [(if o.readonly then Event.lockShared else Event.lockExcl),
              .localRead n, .unlock])
        else
          (.error (.localOp "get" n e),
            [(if o.readonly then Event.lockShared else Event.lockExcl),
              .localRead n, .unlock])
    else (.error .lockFailed, [.lockFail])

/-- CachingStore.Put (cache.go): reject immediately when readonly; route by
useBackingStore; backing-path writes go to the backing store under the
effective name, wrapped as backing-operation errors on failure; local-path
writes take the exclusive lock and write the local cache, wrapped as
local-operation errors on failure, releasing the lock on every return
path. Returns the result, the two tier states and the event trace. -/
def cachePut {σl σb : Type} (tl : Tier σl) (tb : Tier σb) (o : Options)
    (lockOk : Bool) (sl : σl) (sb : σb) (name : String) (data : Bytes) :
    Except GoErr Unit × σl × σb × List Event :=
  if o.readonly then (.error (.readonlyCache "put" name), sl, sb, [])
  else
    match useBackingStore o name with
    | (n, true) =>
      match tb.write sb n data with
      | .ok sb2 => (.ok (), sl, sb2, [.backingWrite n data])
      | .error e =>
        (.error (.backingOp "put" n e), sl, sb, [.backingWrite n data])
    | (n, false) =>
      if lockOk then
        match tl.write sl n data with
        | .ok sl2 =>
          (.ok (), sl2, sb, [.lockExcl, .localWrite n data, .unlock])
        | .error e =>
          (.error (.localOp "put" n e), sl, sb,
            [.lockExcl, .localWrite n data, .unlock])
      else (.error .lockFailed, sl, sb, [.lockFail])

/-- CachingStore.Delete (cache.go): reject immediately when readonly;
unlike Get and Put it does not call useBackingStore — it branches on
IsLocalName directly, so no alias redirect ever applies: a non-local name
is deleted from the backing store (errors wrapped as backing-operation
errors, with no miss translation), a local name is deleted from the local
cache under the exclusive lock (errors wrapped as local-operation errors),
releasing the lock on every return path. -/
def cacheDelete {σl σb : Type} (tl : Tier σl) (tb : Tier σb) (o : Options)
    (lockOk : Bool) (sl : σl) (sb : σb) (name : String) :
    Except GoErr Unit × σl × σb × List Event :=
  if o.readonly then (.error (.readonlyCache "delete" name), sl, sb, [])
  else if !(IsLocalName name) then
    match tb.delete sb name with
    | .ok sb2 => (.ok (), sl, sb2, [.backingDelete name])
    | .error e => (.error (.backingOp "delete" name e), sl, sb, [.backingDelete name])
  else
    if lockOk then
      match tl.delete sl name with
      | .ok sl2 => (.ok (), sl2, sb, [.lockExcl, .localDelete name, .unlock])
      | .error e =>
        (.error (.localOp "delete" name e), sl, sb,
          [.lockExcl, .localDelete name, .unlock])
    else (.error .lockFailed, sl, sb, [.lockFail])

/-- Classification of trace events that call into the backing store. -/
def isBackingEvent : Event → Bool
  | .backingRead _ => true
  | .backingWrite _ _ => true
  | .backingDelete _ => true
  | _ => false

/-- Effective key name carried by a backing-store event. -/
def eventName : Event → Option String
  | .backingRead n => some n
  | .backingWrite n _ => some n
  | .backingDelete n => some n
  | .localRead n => some n
  | .localWrite n _ => some n
  | .localDelete n => some n
  | _ => none

/-! Concrete tiers: a directory modelled as an association list from file
name to contents, most recent write first. -/

abbrev FileMap := List (String × Bytes)

/-- Contents of file `n` in the directory, if present. -/
def lookupFile : FileMap → String → Option Bytes
  | [], _ => none
  | (k, v) :: rest, n => if k = n then some v else lookupFile rest n

/-- Removal of file `n` from the directory. -/
def eraseFile (m : FileMap) (n : String) : FileMap :=
  m.filter (fun kv => kv.1 != n)

/-- autocert.DirCache semantics: Get of a missing file reports
ErrCacheMiss, Put writes the file, Delete of a missing file succeeds. -/
def dirCacheTier : Tier FileMap where
  read := fun m n =>
    match lookupFile m n with
    | some d => .ok d
    | none => .error .cacheMiss
  write := fun m n d => .ok ((n, d) :: m)
  delete := fun m n => .ok (eraseFile m n)

/-- Semantics of the repository's localCache StoreFS (cache.go,
NewLocalStore): ReadFileCtx is os.ReadFile (fs.ErrNotExist when missing),
WriteFileCtx is os.WriteFile, Delete is os.Remove (fs.ErrNotExist when
missing). -/
def osTier : Tier FileMap where
  read := fun m n =>
    match lookupFile m n with
    | some d => .ok d
    | none => .error .notExist
  write := fun m n d => .ok ((n, d) :: m)
  delete := fun m n =>
    match lookupFile m n with
    | some _ => .ok (eraseFile m n)
    | none => .error .notExist

/-! The ACME refresh client (webauth/acme, Client). -/

namespace Acme

/-- View of the leaf certificate returned by the autocert manager:
only its not-after time (as an abstract clock value) matters here. -/
structure Cert where
  notAfter : Nat
deriving DecidableEq

/-- Client.refreshHost: asks the manager for a certificate via a synthetic
TLS client hello. On error it reports the `failed` outcome via the refresh
metric and returns the error; on success it reports `expired` when the
current time is after the leaf's not-after time and `ok` otherwise, and
returns no error either way. The result pairs the statuses reported with
the returned error. -/
def refreshHost (now : Nat) (mgrResult : Except Nat Cert) :
    List String × Option Nat :=
  match mgrResult with
  | .error e => (["failed"], some e)
  | .ok cert =>
    if cert.notAfter < now then (["expired"], none) else (["ok"], none)

/-- Client.getCertificate: the per-host failure loop. It attempts
refreshHost repeatedly at the refresh-on-failure cadence until an attempt
succeeds or cancellation is observed; `attempts` lists the manager outcome
of each successive attempt, the list ending early models cancellation
observed at the ticker wait. Returns the statuses reported in order and
whether the loop exited by success (returning the host task to the normal
refresh cadence) rather than by cancellation. -/
def getCertificate (now : Nat) : List (Except Nat Cert) → List String × Bool
  | [] => ([], false)
  | r :: rest =>
    let step := refreshHost now r
    match step.2 with
    | none => (step.1, true)
    | some _ =>
      let tail := getCertificate now rest
      (step.1 ++ tail.1, tail.2)

/-- Bound (in milliseconds) the stop function waits for the refresh tasks'
completion signal after cancelling, from `time.After(5 * time.Second)`. -/
def stopTimeoutMs : Nat := 5000

/-- Error message the stop function returns when the completion signal
does not arrive in time. -/
def stopTimeoutMsg : String := "timeout waiting for acme server to stop"

/-- Events observable from the stop function: the cancellation signal it
sends to the host tasks. -/
inductive StopEvent where
  | cancel
deriving DecidableEq

/-- Client.stop: cancels the refresh context, then selects between the
error channel and a five-second timer. `arrivalMs` is the time (in
milliseconds after cancellation) at which the refresh goroutine delivers
its aggregate error on the channel, `none` when it never does; `aggErr` is
that aggregate error. Returns the trace of signals sent and the error
result. -/
def clientStop (arrivalMs : Option Nat) (aggErr : Option String) :
    List StopEvent × Option String :=
  match arrivalMs with
  | some t =>
    if t ≤ stopTimeoutMs then ([.cancel], aggErr)
    else ([.cancel], some stopTimeoutMsg)
  | none => ([.cancel], some stopTimeoutMsg)

/-- The completion signal arrives within the stop function's wait bound. -/
def arrivesInTime (arrivalMs : Option Nat) : Prop :=
  ∃ t, arrivalMs = some t ∧ t ≤ stopTimeoutMs

instance (a : Option Nat) : Decidable (arrivesInTime a) := by
  unfold arrivesInTime
  match a with
  | none => exact .isFalse (by simp)
  | some t => exact decidable_of_iff (t ≤ stopTimeoutMs) (by simp)

end Acme

/-! Spec-side predicates, written from the specification's words, used to
state the classifier contract independently of the implementation. -/

/-- Specification reading of "name ends with `suffix`". -/
def SpecEndsWith (s suffix : String) : Prop :=
  ∃ p, s.data = p ++ suffix.data

/-- Specification reading of "name contains `sub` as a substring". -/
def SpecContains (s sub : String) : Prop :=
  ∃ a b, s.data = a ++ sub.data ++ b

/-- Specification: the name is exactly one of the two recognized literal
account-key identifiers. -/
def SpecIsAccountKey (name : String) : Prop :=
  name = "acme_account+key" ∨ name = "acme_account.key"

/-- Specification: the name ends with the private-key suffix, ends with
the one-time-token suffix, contains the HTTP challenge marker, or is an
account key. -/
def SpecIsLocalOnly (name : String) : Prop :=
  SpecEndsWith name "+rsa" ∨ SpecEndsWith name "+token" ∨
  SpecContains name "http-01" ∨ SpecIsAccountKey name

/-! Characterizations of the Go string primitives. -/

theorem goHasPrefixL_iff (s p : List Char) :
    goHasPrefixL s p = true ↔ ∃ t, s = p ++ t := by
  induction s generalizing p with
  | nil =>
    cases p with
    | nil => simp [goHasPrefixL]
    | cons d ds => simp [goHasPrefixL]
  | cons c cs ih =>
    cases p with
    | nil => simp [goHasPrefixL]
    | cons d ds =>
      simp only [goHasPrefixL, Bool.and_eq_true, beq_iff_eq, List.cons_append,
        List.cons.injEq, ih]
      constructor
      · rintro ⟨rfl, t, rfl⟩
        exact ⟨t, rfl, rfl⟩
      · rintro ⟨t, h1, h2⟩
        exact ⟨h1, t, h2⟩

theorem goHasSuffix_iff (s suffix : String) :
    goHasSuffix s suffix = true ↔ SpecEndsWith s suffix := by
  unfold goHasSuffix SpecEndsWith
  rw [goHasPrefixL_iff]
  constructor
  · rintro ⟨t, ht⟩
    refine ⟨t.reverse, ?_⟩
    have := congrArg List.reverse ht
    simpa using this
  · rintro ⟨p, hp⟩
    exact ⟨p.reverse, by simp [hp]⟩

theorem goContainsL_iff (sub s : List Char) :
    goContainsL sub s = true ↔ ∃ a b, s = a ++ sub ++ b := by
  induction s with
  | nil =>
    rw [goContainsL, goHasPrefixL_iff]
    constructor
    · rintro ⟨t, ht⟩
      exact ⟨[], t, ht⟩
    · rintro ⟨a, b, h⟩
      rcases List.append_eq_nil.mp (List.append_eq_nil.mp h.symm).1 with ⟨ha, hs⟩
      exact ⟨b, by simp [hs] at h ⊢; simpa [ha, hs] using h⟩
  | cons c cs ih =>
    rw [goContainsL, Bool.or_eq_true, goHasPrefixL_iff, ih]
    constructor
    · rintro (⟨t, ht⟩ | ⟨a, b, hab⟩)
      · exact ⟨[], t, by simpa using ht⟩
      · exact ⟨c :: a, b, by simp [hab]⟩
    · rintro ⟨a, b, hab⟩
      cases a with
      | nil => exact Or.inl ⟨b, by simpa using hab⟩
      | cons x xs =>
        simp only [List.cons_append, List.cons.injEq] at hab
        exact Or.inr ⟨xs, b, hab.2⟩

theorem goContains_iff (s sub : String) :
    goContains s sub = true ↔ SpecContains s sub := by
  unfold goContains SpecContains
  rw [goContainsL_iff]

/-- C3: IsLocalName holds exactly for names ending in the private-key
suffix `+rsa`, ending in the token suffix `+token`, containing the HTTP
challenge marker `http-01`, or equal to one of the two account-key
literals; and IsAcmeAccountKey holds exactly for those two literals. -/
theorem classifier_contract (name : String) :
    (IsLocalName name = true ↔ SpecIsLocalOnly name) ∧
    (IsAcmeAccountKey name = true ↔ SpecIsAccountKey name) := by
  constructor
  · unfold IsLocalName SpecIsLocalOnly
    simp only [Bool.or_eq_true, goHasSuffix_iff, goContains_iff,
      IsAcmeAccountKey, beq_iff_eq, SpecIsAccountKey]
    tauto
  · unfold IsAcmeAccountKey SpecIsAccountKey
    simp

/-! Routing helper lemmas. -/

theorem useBackingStore_nonlocal (o : Options) {name : String}
    (h : IsLocalName name = false) : useBackingStore o name = (name, true) := by
  simp [useBackingStore, h]

theorem useBackingStore_redirect (o : Options) {name : String}
    (hloc : IsLocalName name = true) (hlen : 0 < o.saveAccountKeyName.length)
    (hak : IsAcmeAccountKey name = true) :
    useBackingStore o name = (o.saveAccountKeyName, true) := by
  simp [useBackingStore, hloc, hlen, hak]

theorem useBackingStore_local (o : Options) {name : String}
    (hloc : IsLocalName name = true)
    (h : ¬(0 < o.saveAccountKeyName.length ∧ IsAcmeAccountKey name = true)) :
    useBackingStore o name = (name, false) := by
  simp only [useBackingStore, hloc, Bool.not_true]
  simp [h]

theorem accountKey_isLocal {name : String} (h : IsAcmeAccountKey name = true) :
    IsLocalName name = true := by
  simp [IsLocalName, h]

theorem marker_not_accountKey {name : String}
    (h : goHasSuffix name "+token" = true ∨ goHasSuffix name "+rsa" = true ∨
      goContains name "http-01" = true) :
    IsAcmeAccountKey name = false := by
  by_cases hb : IsAcmeAccountKey name = true
  · exfalso
    have hn : name = "acme_account+key" ∨ name = "acme_account.key" := by
      have := hb
      simp only [IsAcmeAccountKey, Bool.or_eq_true, beq_iff_eq] at this
      exact this
    rcases hn with rfl | rfl <;> rcases h with h | h | h <;> revert h <;> decide
  · simpa using hb

/-! Trace characterizations of the three operations. -/

theorem cacheGet_backing_trace {σl σb : Type} (tl : Tier σl) (tb : Tier σb)
    (o : Options) (lockOk : Bool) (sl : σl) (sb : σb) {name n' : String}
    (h : useBackingStore o name = (n', true)) :
    (cacheGet tl tb o lockOk sl sb name).2 = [.backingRead n'] := by
  unfold cacheGet
  rw [h]
  dsimp only
  cases tb.read sb n' with
  | ok d => rfl
  | error e =>
    by_cases he : isNotFound e = true <;> simp [he]

theorem cacheGet_local_trace {σl σb : Type} (tl : Tier σl) (tb : Tier σb)
    (o : Options) (lockOk : Bool) (sl : σl) (sb : σb) {name n' : String}
    (h : useBackingStore o name = (n', false)) :
    (cacheGet tl tb o lockOk sl sb name).2 =
      if lockOk then
        [(if o.readonly then Event.lockShared else Event.lockExcl),
          .localRead n', .unlock]
      else [.lockFail] := by
  unfold cacheGet
  rw [h]
  dsimp only
  cases lockOk with
  | false => simp
  | true =>
    simp only [if_true]
    cases tl.read sl n' with
    | ok d => simp
    | error e => by_cases he : isNotFound e = true <;> simp [he]

theorem cachePut_backing_trace {σl σb : Type} (tl : Tier σl) (tb : Tier σb)
    (o : Options) (lockOk : Bool) (sl : σl) (sb : σb) {name n' : String}
    (data : Bytes) (hro : o.readonly = false)
    (h : useBackingStore o name = (n', true)) :
    (cachePut tl tb o lockOk sl sb name data).2.2.2 = [.backingWrite n' data] := by
  unfold cachePut
  rw [hro, h]
  simp only [Bool.false_eq_true, if_false]
  cases tb.write sb n' data with
  | ok s => rfl
  | error e => rfl

theorem cachePut_local_trace {σl σb : Type} (tl : Tier σl) (tb : Tier σb)
    (o : Options) (lockOk : Bool) (sl : σl) (sb : σb) {name n' : String}
    (data : Bytes) (hro : o.readonly = false)
    (h : useBackingStore o name = (n', false)) :
    (cachePut tl tb o lockOk sl sb name data).2.2.2 =
      if lockOk then [.lockExcl, .localWrite n' data, .unlock]
      else [.lockFail] := by
  unfold cachePut
  rw [hro, h]
  simp only [Bool.false_eq_true, if_false]
  cases lockOk with
  | false => simp
  | true =>
    simp only [if_true]
    cases tl.write sl n' data with
    | ok s => simp
    | error e => simp

theorem cacheDelete_local_trace {σl σb : Type} (tl : Tier σl) (tb : Tier σb)
    (o : Options) (lockOk : Bool) (sl : σl) (sb : σb) {name : String}
    (hro : o.readonly = false) (hloc : IsLocalName name = true) :
    (cacheDelete tl tb o lockOk sl sb name).2.2.2 =
      if lockOk then [.lockExcl, .localDelete name, .unlock]
      else [.lockFail] := by
  unfold cacheDelete
  rw [hro, hloc]
  simp only [Bool.false_eq_true, if_false, Bool.not_true]
  cases lockOk with
  | false => simp
  | true =>
    simp only [if_true]
    cases tl.delete sl name with
    | ok s => simp
    | error e => simp

theorem cachePut_readonly {σl σb : Type} (tl : Tier σl) (tb : Tier σb)
    (o : Options) (lockOk : Bool) (sl : σl) (sb : σb) (name : String)
    (data : Bytes) (hro : o.readonly = true) :
    cachePut tl tb o lockOk sl sb name data =
      (.error (.readonlyCache "put" name), sl, sb, []) := by
  unfold cachePut
  rw [hro]
  simp

theorem cacheDelete_readonly {σl σb : Type} (tl : Tier σl) (tb : Tier σb)
    (o : Options) (lockOk : Bool) (sl : σl) (sb : σb) (name : String)
    (hro : o.readonly = true) :
    cacheDelete tl tb o lockOk sl sb name =
      (.error (.readonlyCache "delete" name), sl, sb, []) := by
  unfold cacheDelete
  rw [hro]
  simp

/-- C1: for every Local-classified key and every configuration, Get, Put
and Delete only ever call the backing store in the save-account-key case:
any backing-store event in any of the three traces implies an alias is
configured, the key is the account key, and the event's effective name is
the alias; and a name ending in the token suffix or the private-key
suffix, or containing the challenge marker, produces no backing-store
event under any configuration. -/
theorem local_names_never_backing {σl σb : Type} (tl : Tier σl) (tb : Tier σb)
    (o : Options) (lockOk : Bool) (sl : σl) (sb : σb) (name : String)
    (data : Bytes) (hloc : IsLocalName name = true) :
    (∀ ev : Event,
      (ev ∈ (cacheGet tl tb o lockOk sl sb name).2 ∨
       ev ∈ (cachePut tl tb o lockOk sl sb name data).2.2.2 ∨
       ev ∈ (cacheDelete tl tb o lockOk sl sb name).2.2.2) →
      isBackingEvent ev = true →
      0 < o.saveAccountKeyName.length ∧ IsAcmeAccountKey name = true ∧
        eventName ev = some o.saveAccountKeyName) ∧
    ((goHasSuffix name "+token" = true ∨ goHasSuffix name "+rsa" = true ∨
      goContains name "http-01" = true) →
      ∀ ev : Event,
        (ev ∈ (cacheGet tl tb o lockOk sl sb name).2 ∨
         ev ∈ (cachePut tl tb o lockOk sl sb name data).2.2.2 ∨
         ev ∈ (cacheDelete tl tb o lockOk sl sb name).2.2.2) →
        isBackingEvent ev = false) := by
  have hdelTrace : ∀ ev : Event,
      ev ∈ (cacheDelete tl tb o lockOk sl sb name).2.2.2 →
      isBackingEvent ev = false := by
    intro ev hm
    by_cases hro : o.readonly = true
    · rw [cacheDelete_readonly tl tb o lockOk sl sb name hro] at hm
      simp at hm
    · rw [cacheDelete_local_trace tl tb o lockOk sl sb
        (Bool.not_eq_true _ ▸ hro) hloc] at hm
      cases lockOk <;> simp at hm <;>
        rcases hm with rfl | rfl | rfl <;> rfl
  by_cases hred : 0 < o.saveAccountKeyName.length ∧ IsAcmeAccountKey name = true
  · have hub := useBackingStore_redirect o hloc hred.1 hred.2
    constructor
    · intro ev hmem _
      rcases hmem with hm | hm | hm
      · rw [cacheGet_backing_trace tl tb o lockOk sl sb hub] at hm
        simp at hm
        subst hm
        exact ⟨hred.1, hred.2, rfl⟩
      · by_cases hro : o.readonly = true
        · rw [cachePut_readonly tl tb o lockOk sl sb name data hro] at hm
          simp at hm
        · rw [cachePut_backing_trace tl tb o lockOk sl sb data
            (Bool.not_eq_true _ ▸ hro) hub] at hm
          simp at hm
          subst hm
          exact ⟨hred.1, hred.2, rfl⟩
      · have := hdelTrace ev hm
        exact ⟨hred.1, hred.2, by
          exfalso
          rename_i hbe
          rw [this] at hbe
          exact Bool.false_ne_true hbe⟩
    · intro hmark
      exact absurd hred.2 (by rw [marker_not_accountKey hmark]; simp)
  · have hub := useBackingStore_local o hloc hred
    have hnb : ∀ ev : Event,
        (ev ∈ (cacheGet tl tb o lockOk sl sb name).2 ∨
         ev ∈ (cachePut tl tb o lockOk sl sb name data).2.2.2 ∨
         ev ∈ (cacheDelete tl tb o lockOk sl sb name).2.2.2) →
        isBackingEvent ev = false := by
      intro ev hmem
      rcases hmem with hm | hm | hm
      · rw [cacheGet_local_trace tl tb o lockOk sl sb hub] at hm
        cases lockOk <;> simp at hm
        · subst hm; rfl
        · rcases hm with rfl | rfl | rfl
          · cases o.readonly <;> rfl
          · rfl
          · rfl
      · by_cases hro : o.readonly = true
        · rw [cachePut_readonly tl tb o lockOk sl sb name data hro] at hm
          simp at hm
        · rw [cachePut_local_trace tl tb o lockOk sl sb data
            (Bool.not_eq_true _ ▸ hro) hub] at hm
          cases lockOk <;> simp at hm
          · subst hm; rfl
          · rcases hm with rfl | rfl | rfl <;> rfl
      · exact hdelTrace ev hm
    refine ⟨fun ev hmem hbe => absurd (hnb ev hmem) (by rw [hbe]; simp),
      fun _ => hnb⟩

/-- Witness for C1 at the account key with an alias configured: the
account key is local, and the theorem applies; in particular the Get trace
really is a backing read of the alias. -/
theorem local_names_never_backing_witness :
    IsLocalName "acme_account+key" = true ∧
    (∀ ev : Event,
      (ev ∈ (cacheGet dirCacheTier osTier ⟨false, "backup"⟩ true [] []
          "acme_account+key").2 ∨
       ev ∈ (cachePut dirCacheTier osTier ⟨false, "backup"⟩ true [] []
          "acme_account+key" [7]).2.2.2 ∨
       ev ∈ (cacheDelete dirCacheTier osTier ⟨false, "backup"⟩ true [] []
          "acme_account+key").2.2.2) →
      isBackingEvent ev = true →
      0 < ("backup" : String).length ∧
        IsAcmeAccountKey "acme_account+key" = true ∧
        eventName ev = some "backup") :=
  ⟨by decide,
    (local_names_never_backing dirCacheTier osTier ⟨false, "backup"⟩ true [] []
      "acme_account+key" [7] (by decide)).1⟩

theorem useBackingStore_false_name (o : Options) (name : String)
    (h : (useBackingStore o name).2 = false) :
    (useBackingStore o name).1 = name := by
  unfold useBackingStore at *
  split_ifs at *
  simp_all

/-- Counterexample to C2 as stated: "acme_account+key" is classified
local-only, yet with a save-account-key alias configured Get takes no lock
and reads the backing store under the alias, returning a cache miss even
though the local tier holds the key. -/
theorem get_localonly_cex :
    IsLocalName "acme_account+key" = true ∧
    (cacheGet dirCacheTier osTier ⟨false, "backup"⟩ true
        [("acme_account+key", [1])] [] "acme_account+key").2 =
      [.backingRead "backup"] ∧
    (cacheGet dirCacheTier osTier ⟨false, "backup"⟩ true
        [("acme_account+key", [1])] [] "acme_account+key").1 =
      .error .cacheMiss :=
  ⟨by decide, rfl, rfl⟩

/-- C2 amended: for every name with IsLocalName true that is not
redirected (that is, unless the name is the account key and a
save-account-key alias is configured), Get acquires the local lock in
shared form when the store is readonly and exclusive form otherwise,
reads through the local tier, translates not-found into ErrCacheMiss,
wraps other errors as local-operation errors, and the unlock appears on
every return path; a failed lock acquisition aborts with ErrLockFailed. -/
theorem get_localonly_amended {σl σb : Type} (tl : Tier σl) (tb : Tier σb)
    (o : Options) (lockOk : Bool) (sl : σl) (sb : σb) (name : String)
    (hloc : IsLocalName name = true)
    (hnored : ¬(0 < o.saveAccountKeyName.length ∧
      IsAcmeAccountKey name = true)) :
    (lockOk = false →
      (cacheGet tl tb o lockOk sl sb name).1 = .error .lockFailed ∧
      (cacheGet tl tb o lockOk sl sb name).2 = [.lockFail]) ∧
    (lockOk = true →
      (cacheGet tl tb o lockOk sl sb name).2 =
        [(if o.readonly then Event.lockShared else Event.lockExcl),
          .localRead name, .unlock] ∧
      (∀ d, tl.read sl name = .ok d →
        (cacheGet tl tb o lockOk sl sb name).1 = .ok d) ∧
      (∀ e, tl.read sl name = .error e → isNotFound e = true →
        (cacheGet tl tb o lockOk sl sb name).1 = .error .cacheMiss) ∧
      (∀ e, tl.read sl name = .error e → isNotFound e = false →
        (cacheGet tl tb o lockOk sl sb name).1 =
          .error (.localOp "get" name e))) := by
  have hub := useBackingStore_local o hloc hnored
  constructor
  · rintro rfl
    unfold cacheGet
    rw [hub]
    simp
  · rintro rfl
    refine ⟨cacheGet_local_trace tl tb o true sl sb hub, ?_, ?_, ?_⟩
    · intro d hd
      unfold cacheGet
      rw [hub]
      dsimp only
      rw [hd]
      simp
    · intro e he hnf
      unfold cacheGet
      rw [hub]
      dsimp only
      rw [he]
      simp [hnf]
    · intro e he hnf
      unfold cacheGet
      rw [hub]
      dsimp only
      rw [he]
      simp [hnf]

/-- Witness for the amended C2 at a private-key name with no alias
configured: the lock is taken exclusively, the local value is returned,
and the unlock is on the trace. -/
theorem get_localonly_amended_witness :
    (cacheGet dirCacheTier osTier ⟨false, ""⟩ true [("x+rsa", [9])] []
        "x+rsa").2 = [Event.lockExcl, .localRead "x+rsa", .unlock] ∧
    (cacheGet dirCacheTier osTier ⟨false, ""⟩ true [("x+rsa", [9])] []
        "x+rsa").1 = .ok [9] := by
  have h := (get_localonly_amended dirCacheTier osTier ⟨false, ""⟩ true
    [("x+rsa", [9])] [] "x+rsa" (by decide) (by decide)).2 rfl
  exact ⟨by simpa using h.1, h.2.1 [9] rfl⟩

/-- C4: a Get of a name never written — absent from the local directory
and, under its effective backing name, from the backing store — returns
the canonical ErrCacheMiss, for local-only and shareable names alike,
whether the underlying store reports the DirCache miss form or the
filesystem not-exist form; no raw store error escapes. -/
theorem get_never_written (o : Options) (name : String) (sl sb : FileMap)
    (hl : lookupFile sl name = none)
    (hb : lookupFile sb (useBackingStore o name).1 = none) :
    (cacheGet dirCacheTier osTier o true sl sb name).1 = .error .cacheMiss := by
  rcases hub : useBackingStore o name with ⟨n', b⟩
  rw [hub] at hb
  cases b
  · have hn : n' = name := by
      have h2 := useBackingStore_false_name o name (by rw [hub])
      rw [hub] at h2
      exact h2
    subst hn
    have hrd : dirCacheTier.read sl n' = .error .cacheMiss := by
      simp [dirCacheTier, hl]
    simp [cacheGet, hub, hrd, isNotFound]
  · have hrd : osTier.read sb n' = .error .notExist := by
      simp [osTier, hb]
    simp [cacheGet, hub, hrd, isNotFound]

/-- Witness for C4 at a shareable name absent from both tiers. -/
theorem get_never_written_witness :
    (cacheGet dirCacheTier osTier ⟨false, ""⟩ true [] [("other", [1])]
        "example.com").1 = .error .cacheMiss :=
  get_never_written ⟨false, ""⟩ "example.com" [] [("other", [1])] rfl rfl

/-- C5: on a readonly store, Put and Delete return the readonly-cache
error at once: the result carries ErrReadonlyCache, both tier states are
returned unchanged, and the trace is empty — no write, delete or lock
acquisition on either tier. -/
theorem readonly_no_mutation {σl σb : Type} (tl : Tier σl) (tb : Tier σb)
    (o : Options) (lockOk : Bool) (sl : σl) (sb : σb) (name : String)
    (data : Bytes) (hro : o.readonly = true) :
    cachePut tl tb o lockOk sl sb name data =
      (.error (.readonlyCache "put" name), sl, sb, []) ∧
    cacheDelete tl tb o lockOk sl sb name =
      (.error (.readonlyCache "delete" name), sl, sb, []) :=
  ⟨cachePut_readonly tl tb o lockOk sl sb name data hro,
   cacheDelete_readonly tl tb o lockOk sl sb name hro⟩

/-- Witness for C5 at a concrete readonly store. -/
theorem readonly_no_mutation_witness :
    cachePut dirCacheTier osTier ⟨true, ""⟩ true [] [] "cert" [1] =
      (.error (.readonlyCache "put" "cert"), [], [], []) ∧
    cacheDelete dirCacheTier osTier ⟨true, ""⟩ true [] [] "cert" =
      (.error (.readonlyCache "delete" "cert"), [], [], []) :=
  readonly_no_mutation dirCacheTier osTier ⟨true, ""⟩ true [] [] "cert" [1] rfl

/-- C6: on a store that is not readonly, a successful Put followed by Get
of the same name returns exactly the bytes written, on the local path, the
backing path and the account-key alias path alike (Put and Get route
through the same useBackingStore, so the effective key agrees). -/
theorem put_get_roundtrip (o : Options) (name : String) (data : Bytes)
    (sl sb : FileMap) (hro : o.readonly = false) :
    (cachePut dirCacheTier osTier o true sl sb name data).1 = .ok () ∧
    (cacheGet dirCacheTier osTier o true
        (cachePut dirCacheTier osTier o true sl sb name data).2.1
        (cachePut dirCacheTier osTier o true sl sb name data).2.2.1 name).1 =
      .ok data := by
  rcases hub : useBackingStore o name with ⟨n', b⟩
  cases b
  · simp [cachePut, cacheGet, hro, hub, dirCacheTier, lookupFile]
  · simp [cachePut, cacheGet, hro, hub, osTier, lookupFile]

/-- Witness for C6: writing then reading `example.com` returns the bytes
written. -/
theorem put_get_roundtrip_witness :
    (cachePut dirCacheTier osTier ⟨false, ""⟩ true [] [] "example.com"
        [1, 2]).1 = .ok () ∧
    (cacheGet dirCacheTier osTier ⟨false, ""⟩ true
        (cachePut dirCacheTier osTier ⟨false, ""⟩ true [] [] "example.com"
          [1, 2]).2.1
        (cachePut dirCacheTier osTier ⟨false, ""⟩ true [] [] "example.com"
          [1, 2]).2.2.1 "example.com").1 = .ok [1, 2] :=
  put_get_roundtrip ⟨false, ""⟩ "example.com" [1, 2] [] [] rfl

/-- C7: when the backing store's Delete reports not-exist for a shareable
name, CachingStore.Delete passes it through wrapped as a backing-operation
error — not normalized to ErrCacheMiss — whereas Get normalizes the same
underlying not-exist into ErrCacheMiss. -/
theorem delete_missing_not_normalized {σl σb : Type} (tl : Tier σl)
    (tb : Tier σb) (o : Options) (lockOk : Bool) (sl : σl) (sb : σb)
    (name : String) (hnl : IsLocalName name = false)
    (hro : o.readonly = false)
    (hdel : tb.delete sb name = .error .notExist) :
    (cacheDelete tl tb o lockOk sl sb name).1 =
      .error (.backingOp "delete" name .notExist) ∧
    (cacheDelete tl tb o lockOk sl sb name).1 ≠ .error .cacheMiss ∧
    (tb.read sb name = .error .notExist →
      (cacheGet tl tb o lockOk sl sb name).1 = .error .cacheMiss) := by
  have h1 : (cacheDelete tl tb o lockOk sl sb name).1 =
      .error (.backingOp "delete" name .notExist) := by
    simp [cacheDelete, hro, hnl, hdel]
  refine ⟨h1, by rw [h1]; simp, ?_⟩
  intro hread
  have hub := useBackingStore_nonlocal o hnl
  simp [cacheGet, hub, hread, isNotFound]

/-- Witness for C7: deleting the never-written shareable name `cert`
through an os-semantics backing store. -/
theorem delete_missing_not_normalized_witness :
    (cacheDelete dirCacheTier osTier ⟨false, ""⟩ true [] [] "cert").1 =
      .error (.backingOp "delete" "cert" .notExist) ∧
    (cacheGet dirCacheTier osTier ⟨false, ""⟩ true [] [] "cert").1 =
      .error .cacheMiss := by
  have h := delete_missing_not_normalized dirCacheTier osTier ⟨false, ""⟩
    true [] [] "cert" (by decide) rfl rfl
  exact ⟨h.1, h.2.2 rfl⟩

/-- C10: with a save-account-key alias configured, Delete of an
account-key name ignores the alias: it takes the exclusive local lock and
deletes the literal name from the local tier, leaving the backing store
untouched (no backing event, backing state unchanged), while Put and Get
of the same name are redirected to the backing store under the alias. -/
theorem delete_account_key_not_redirected {σl σb : Type} (tl : Tier σl)
    (tb : Tier σb) (o : Options) (sl : σl) (sb : σb) (name : String)
    (data : Bytes) (halias : 0 < o.saveAccountKeyName.length)
    (hak : IsAcmeAccountKey name = true) (hro : o.readonly = false) :
    (cacheDelete tl tb o true sl sb name).2.2.2 =
      [.lockExcl, .localDelete name, .unlock] ∧
    (cacheDelete tl tb o true sl sb name).2.2.1 = sb ∧
    (∀ sl2, tl.delete sl name = .ok sl2 →
      (cacheDelete tl tb o true sl sb name).1 = .ok () ∧
      (cacheDelete tl tb o true sl sb name).2.1 = sl2) ∧
    (cachePut tl tb o true sl sb name data).2.2.2 =
      [.backingWrite o.saveAccountKeyName data] ∧
    (cacheGet tl tb o true sl sb name).2 =
      [.backingRead o.saveAccountKeyName] := by
  have hloc := accountKey_isLocal hak
  have hub := useBackingStore_redirect o hloc halias hak
  refine ⟨?_, ?_, ?_,
    cachePut_backing_trace tl tb o true sl sb data hro hub,
    cacheGet_backing_trace tl tb o true sl sb hub⟩
  · simpa using cacheDelete_local_trace tl tb o true sl sb hro hloc
  · cases htl : tl.delete sl name <;> simp [cacheDelete, hro, hloc, htl]
  · intro sl2 h2
    constructor <;> simp [cacheDelete, hro, hloc, h2]

/-- Witness for C10 at the literal account key with alias `backup`. -/
theorem delete_account_key_not_redirected_witness :
    (cacheDelete dirCacheTier osTier ⟨false, "backup"⟩ true
        [("acme_account+key", [3])] [] "acme_account+key").2.2.2 =
      [.lockExcl, .localDelete "acme_account+key", .unlock] ∧
    (cacheGet dirCacheTier osTier ⟨false, "backup"⟩ true
        [("acme_account+key", [3])] [] "acme_account+key").2 =
      [.backingRead "backup"] := by
  have h := delete_account_key_not_redirected dirCacheTier osTier
    ⟨false, "backup"⟩ [("acme_account+key", [3])] [] "acme_account+key" [3]
    (by decide) (by decide) rfl
  exact ⟨h.1, h.2.2.2.2⟩

/-- C9: when a refresh attempt succeeds, the outcome reported for the
host is `expired` if the certificate's not-after time has passed and `ok`
otherwise, with no error returned in either case; consequently the
getCertificate failure loop exits on the first successful attempt —
an expired certificate is reported but still counts as success, returning
the task to the normal cadence instead of the failure cadence. -/
theorem refresh_success_reports_ok_or_expired (now : Nat) (c : Acme.Cert)
    (rest : List (Except Nat Acme.Cert)) :
    Acme.refreshHost now (.ok c) =
      ((if c.notAfter < now then ["expired"] else ["ok"]), none) ∧
    Acme.getCertificate now (.ok c :: rest) =
      ((if c.notAfter < now then ["expired"] else ["ok"]), true) := by
  by_cases h : c.notAfter < now <;>
    simp [Acme.getCertificate, Acme.refreshHost, h]

/-- C8: the stop function first signals cancellation to the host tasks,
then returns the aggregate completion error when the completion signal
arrives within the five-second bound, and a timeout error — never a
silent nil — when it does not. -/
theorem stop_reports_timeout (arrivalMs : Option Nat) (aggErr : Option String) :
    (Acme.clientStop arrivalMs aggErr).1 = [.cancel] ∧
    (Acme.arrivesInTime arrivalMs →
      (Acme.clientStop arrivalMs aggErr).2 = aggErr) ∧
    (¬ Acme.arrivesInTime arrivalMs →
      (Acme.clientStop arrivalMs aggErr).2 = some Acme.stopTimeoutMsg ∧
      (Acme.clientStop arrivalMs aggErr).2 ≠ none) := by
  refine ⟨?_, ?_, ?_⟩
  · cases arrivalMs with
    | none => rfl
    | some t =>
      unfold Acme.clientStop
      by_cases h : t ≤ Acme.stopTimeoutMs <;> simp [h]
  · rintro ⟨t, rfl, ht⟩
    simp [Acme.clientStop, ht]
  · intro hna
    cases arrivalMs with
    | none => exact ⟨rfl, by simp [Acme.clientStop]⟩
    | some t =>
      have ht : ¬ t ≤ Acme.stopTimeoutMs := fun hle => hna ⟨t, rfl, hle⟩
      constructor <;> simp [Acme.clientStop, ht]

/-- Witness for C8: with the completion signal arriving after 100ms the
aggregate error is returned; with no completion signal the timeout error
is returned. -/
theorem stop_reports_timeout_witness :
    (Acme.clientStop (some 100) (some "boom")).2 = some "boom" ∧
    (Acme.clientStop none none).2 = some Acme.stopTimeoutMsg :=
  ⟨(stop_reports_timeout (some 100) (some "boom")).2.1 ⟨100, rfl, by decide⟩,
   ((stop_reports_timeout none none).2.2 (by rintro ⟨t, ht, _⟩; cases ht)).1⟩

end Certcache
